import Mathlib

/-!
# Verification of the `ai-agents` repository claims

Shallow embedding of the parts of the repository the claims concern:

* `agents/article-editor/utils/steps.py` — the JSON-repair heuristic
  `fix_json_string_escaping` and the 7-step workflow orchestration
  `run_article_editor_workflow`;
* `agents/fraud-trends/scripts/import_case_studies.py` — `DatabaseConnection.connect`,
  `validate_json_file`, `sanitize_text`, `sanitize_json_field`, `import_single_file`
  and `import_directory`.

Strings are modelled as `List Char`.  Python's `re` usage in the sources is limited
to a handful of concrete patterns (literals, `\s*`, `$`); those are embedded as
direct string-searching functions with Python's leftmost-match semantics.
-/

/-! ## Definitions -/

namespace ArticleEditor

/-- Python strings, modelled as lists of characters. -/
abbrev Str := List Char

/-- Whitespace, as matched by Python's regex `\s` and by `str.isspace`/`str.strip`
on the ASCII range (` `, `\t`, `\n`, `\r`, `\x0b`, `\x0c`).  The sources only ever
feed it ASCII-significant checks. -/
def pySpace (c : Char) : Bool :=
  c == ' ' || c == '\t' || c == '\n' || c == '\r' || c == '\x0b' || c == '\x0c'

/-- `leads pat s` holds when `pat` occurs at the very start of `s`. -/
def leads : Str → Str → Bool
  | [], _ => true
  | _ :: _, [] => false
  | a :: as, b :: bs => (a == b) && leads as bs

/-- Number of leading whitespace characters: the extent of a greedy `\s*`. -/
def wsCount : Str → Nat
  | [] => 0
  | c :: rest => if pySpace c then wsCount rest + 1 else 0

/-- One step of Python `str.replace`, fuelled so that the recursion is structural:
scan left to right, replacing non-overlapping occurrences of `pat` by `rep`.
`fuel ≥ s.length` makes the fuel irrelevant (each step consumes at least one
character when `pat ≠ []`). -/
def replAux (pat rep : Str) : Nat → Str → Str
  | 0, s => s
  | _ + 1, [] => []
  | fuel + 1, c :: rest =>
    if leads pat (c :: rest) && !pat.isEmpty then
      rep ++ replAux pat rep fuel ((c :: rest).drop pat.length)
    else
      c :: replAux pat rep fuel rest

/-- Python `s.replace(pat, rep)` (for the non-empty patterns the source uses). -/
def pyReplace (s pat rep : Str) : Str := replAux pat rep s.length s

/-! ## `fix_json_string_escaping` (steps.py lines 968–1020)

The Python function searches for the start pattern `"enhanced_article":\s*"`,
then for the first of four end patterns, escapes the content in between and
splices the pieces back together. -/
/-- The literal part `"enhanced_article":` of the start pattern. -/
def startLit : Str := '"' :: "enhanced_article".data ++ ['"', ':']

/-- Try to match `"enhanced_article":\s*"` at the head of `s`; returns the match
length.  The greedy `\s*` is followed by the non-whitespace literal `"`, so
maximal-run matching is exact. -/
def tryStartAt (s : Str) : Option Nat :=
  if leads startLit s then
    let rest := s.drop startLit.length
    let w := wsCount rest
    match rest.drop w with
    | '"' :: _ => some (startLit.length + w + 1)
    | _ => none
  else none

/-- `re.search` position scan: try the head matcher at every position of `s`
(including the empty suffix), returning the leftmost match position and length. -/
def searchAux (t : Str → Option Nat) : Str → Option (Nat × Nat)
  | [] =>
    match t [] with
    | some len => some (0, len)
    | none => none
  | c :: rest =>
    match t (c :: rest) with
    | some len => some (0, len)
    | none =>
      match searchAux t rest with
      | some (i, len) => some (i + 1, len)
      | none => none

/-- `re.search(start_pattern, text)`: end position (`match.end()`) of the leftmost
match of `"enhanced_article":\s*"`. -/
def findStart (s : Str) : Option Nat :=
  match searchAux tryStartAt s with
  | some (i, len) => some (i + len)
  | none => none

/-- Head matcher for the end patterns `"\s*,\s*"<kw>"` (with
`kw ∈ {key_learnings, structural_changes, added_references}`). -/
def tryEndKeyword (kw : Str) (s : Str) : Option Nat :=
  match s with
  | '"' :: rest =>
    let w1 := wsCount rest
    match rest.drop w1 with
    | ',' :: rest2 =>
      let w2 := wsCount rest2
      if leads ('"' :: kw ++ ['"']) (rest2.drop w2) then
        some (1 + w1 + 1 + w2 + (kw.length + 2))
      else none
    | _ => none
  | _ => none

/-- Head matcher for the end pattern `"\s*}$` under `re.MULTILINE`: `$` matches
at the end of the searched slice or just before a `\n`. -/
def tryEndBrace (s : Str) : Option Nat :=
  match s with
  | '"' :: rest =>
    let w := wsCount rest
    match rest.drop w with
    | '}' :: rest2 =>
      match rest2 with
      | [] => some (1 + w + 1)
      | '\n' :: _ => some (1 + w + 1)
      | _ => none
    | _ => none
  | _ => none

/-- The `for end_pat in end_patterns` loop: each pattern is searched over the whole
slice in turn, and the first pattern with any match wins.  Returns the match
start (relative to the slice) and the matched length (`group(0)`). -/
def findEnd (s : Str) : Option (Nat × Nat) :=
  match searchAux (tryEndKeyword "key_learnings".data) s with
  | some r => some r
  | none =>
    match searchAux (tryEndKeyword "structural_changes".data) s with
    | some r => some r
    | none =>
      match searchAux (tryEndKeyword "added_references".data) s with
      | some r => some r
      | none => searchAux tryEndBrace s

/-- The `\x00ESCAPED_QUOTE\x00` placeholder used to protect already-escaped quotes. -/
def sentinel : Str := '\x00' :: "ESCAPED_QUOTE".data ++ ['\x00']

/-- The fix applied to the extracted `enhanced_article` content: protect `\"`,
escape bare `"`, restore, then escape raw newlines, carriage returns and tabs. -/
def escapeContent (content : Str) : Str :=
  let s1 := pyReplace content ['\\', '"'] sentinel
  let s2 := pyReplace s1 ['"'] ['\\', '"']
  let s3 := pyReplace s2 sentinel ['\\', '"']
  let s4 := pyReplace s3 ['\n'] ['\\', 'n']
  let s5 := pyReplace s4 ['\r'] ['\\', 'r']
  pyReplace s5 ['\t'] ['\\', 't']

/-- `fix_json_string_escaping` itself: locate the value region, fix its escaping,
and rebuild `text[:start] + fixed + matched_ending + tail`. -/
def fix_json_string_escaping (text : Str) : Str :=
  match findStart text with
  | none => text
  | some startPos =>
    match findEnd (text.drop startPos) with
    | none => text
    | some (endRel, endLen) =>
      let content := (text.drop startPos).take endRel
      let fixedContent := escapeContent content
      let matchedEnding := ((text.drop startPos).drop endRel).take endLen
      text.take startPos ++ fixedContent ++ matchedEnding ++
        text.drop (startPos + endRel + endLen)

/-! ## Properties of the escaping pass -/
/-- `qeAux prev s`: walking `s` with `prev` as the character immediately before its
head, every `"` in `s` is immediately preceded by a backslash. -/
def qeAux (prev : Char) : Str → Bool
  | [] => true
  | c :: rest => (!(c == '"') || (prev == '\\')) && qeAux c rest

/-- Every double quote in `s` is immediately preceded by a backslash (a quote at
position 0 has no predecessor, hence fails). -/
def quotesEscaped (s : Str) : Bool := qeAux ' ' s

/-- No raw newline, carriage return or tab occurs in `s`. -/
def noCtl (s : Str) : Bool :=
  s.all (fun c => !(c == '\n') && !(c == '\r') && !(c == '\t'))

/-- Concrete input whose `enhanced_article` value contains a raw newline. -/
def regionWitnessInput : Str :=
  "\"enhanced_article\": \"ab\ncd\", \"key_learnings\" tail".data

/-- Concrete input for the C8 witness, ending with the `"\s*}$` pattern. -/
def frameWitnessInput : Str := "\x7b\"enhanced_article\": \"hi\" \x7d".data

/-- Input containing a NUL byte followed by the sentinel letters: the content of
the `enhanced_article` value is `\x00ESCAPED_QUOTE"`. -/
def nonIdemInput : Str :=
  "\"enhanced_article\": \"".data ++ ('\x00' :: "ESCAPED_QUOTE\"".data) ++
    "\", \"key_learnings\"".data

/-! ## The 7-step workflow (`run_article_editor_workflow`, steps.py lines 1173–1260)

The orchestrator's control flow on a successful run is fixed: each step makes the
synchronous network calls shown below and appends one `ExecutionStep` to the
trace.  Parsed LLM responses only influence the calls through the number of
claims identified in step 2 (step 3 searches `claims[:5]`, one Tavily call per
claim) and through the presence of `TAVILY_API_KEY`; everything else in the
responses is irrelevant to the trace shape and call count, so it is abstracted
away. -/
/-- The fields of an execution-trace entry that the claims are about. -/
structure ExecutionStep where
  step_number : Nat
  step_name : String
  step_type : String
deriving DecidableEq

/-- One synchronous network call: an Anthropic LLM invocation (`llm.invoke`) or a
Tavily web search (`tavily_client.search`). -/
inductive NetCall where
  | llm
  | tavily
deriving DecidableEq

/-- Step 1: one `llm.invoke`. -/
def step_1_analyze_structure : ExecutionStep × List NetCall :=
  (⟨1, "Analyze Structure", "structure_analysis"⟩, [NetCall.llm])

/-- Step 2: one `llm.invoke`; the parsed response carries `claimsCount` claims. -/
def step_2_identify_claims : ExecutionStep × List NetCall :=
  (⟨2, "Identify Claims", "claim_identification"⟩, [NetCall.llm])

/-- Step 3: with no `TAVILY_API_KEY` the search is skipped entirely; with a key,
one `tavily_client.search` call is made per claim in `claims[:5]` (the call is
made even when it fails — failures are caught and the loop continues). -/
def step_3_search_references (claimsCount : Nat) (tavilyKey : Bool) :
    ExecutionStep × List NetCall :=
  if tavilyKey then
    (⟨3, "Search References", "reference_search"⟩,
      List.replicate (min claimsCount 5) NetCall.tavily)
  else
    (⟨3, "Search References", "reference_search"⟩, [])

/-- Step 4: one `llm.invoke`. -/
def step_4_find_examples : ExecutionStep × List NetCall :=
  (⟨4, "Find Examples", "example_identification"⟩, [NetCall.llm])

/-- Step 5: one `llm.invoke`. -/
def step_5_analyze_flow : ExecutionStep × List NetCall :=
  (⟨5, "Analyze Flow", "flow_analysis"⟩, [NetCall.llm])

/-- Step 6 consolidates the previous results purely; no network call. -/
def step_6_generate_suggestions : ExecutionStep × List NetCall :=
  (⟨6, "Generate Suggestions", "suggestion_generation"⟩, [])

/-- Step 7: one `llm.invoke`. -/
def step_7_produce_enhanced_version : ExecutionStep × List NetCall :=
  (⟨7, "Produce Enhanced Version", "enhancement"⟩, [NetCall.llm])

/-- A successful run of `run_article_editor_workflow`: the seven steps in source
order, the trace entries appended one per step, and the network calls made in
order.  `claimsCount` is the number of claims the step-2 response parsed to;
`tavilyKey` is whether `TAVILY_API_KEY` is set. -/
def run_article_editor_workflow (claimsCount : Nat) (tavilyKey : Bool) :
    List ExecutionStep × List NetCall :=
  let s1 := step_1_analyze_structure
  let s2 := step_2_identify_claims
  let s3 := step_3_search_references claimsCount tavilyKey
  let s4 := step_4_find_examples
  let s5 := step_5_analyze_flow
  let s6 := step_6_generate_suggestions
  let s7 := step_7_produce_enhanced_version
  ([s1.1, s2.1, s3.1, s4.1, s5.1, s6.1, s7.1],
    s1.2 ++ s2.2 ++ s3.2 ++ s4.2 ++ s5.2 ++ s6.2 ++ s7.2)

end ArticleEditor

namespace ImportScript

open ArticleEditor (Str leads pyReplace replAux pySpace)

/-! # `scripts/import_case_studies.py` (fraud-trends)

Embedding of the database-import script: connection retry logic, JSON
validation, text sanitization, and the single-file / directory import flows. -/
/-- `needle in hay` for Python strings (substring containment). -/
def hasSub (hay needle : Str) : Bool :=
  match hay with
  | [] => needle.isEmpty
  | _ :: rest => leads needle hay || hasSub rest needle

/-- Python `str.lower`, on the ASCII range the error categorization cares about. -/
def pyLower (c : Char) : Char := c.toLower

/-! ## `DatabaseConnection.connect` (lines 70–146) -/
/-- What one connection attempt (pool creation plus `SELECT 1` probe) does. -/
inductive AttemptOutcome where
  /-- The attempt succeeds and `connect` returns. -/
  | success
  /-- `psycopg2.OperationalError` is raised with message `msg` (`str(e)`). -/
  | opError (msg : Str)
  /-- Another `psycopg2.Error` is raised (re-raised immediately). -/
  | pgError
  /-- Any other exception is raised (re-raised immediately). -/
  | unexpected
deriving DecidableEq

/-- Observable events of the retry loop. -/
inductive ConnEvent where
  /-- A connection attempt is started. -/
  | attempt
  /-- `time.sleep(secs)` between retries. -/
  | sleep (secs : Nat)
deriving DecidableEq

/-- How `connect` terminates. -/
inductive ConnResult where
  | connected
  /-- The categorizer re-raised the original `OperationalError` immediately. -/
  | raisedOp (msg : Str)
  /-- The final `OperationalError` raised after exhausting all retries. -/
  | raisedFinal
  | raisedPg
  | raisedOther
deriving DecidableEq

def isAttempt : ConnEvent → Bool
  | .attempt => true
  | _ => false

/-- The error categorization of the `except psycopg2.OperationalError` branch,
applied to the lowercased message: `True` means the loop falls through to the
retry logic, `False` means the error is re-raised immediately.  Note that the
timeout and could-not-connect categories are tested first. -/
def retryableMsg (m : Str) : Bool :=
  if hasSub m "timeout".data || hasSub m "timed out".data then true
  else if hasSub m "could not connect".data || hasSub m "connection refused".data then true
  else if hasSub m "does not exist".data then false
  else if hasSub m "authentication failed".data || hasSub m "password".data then false
  else true

namespace DatabaseConnection

/-- The `for attempt in range(1, max_retries + 1)` loop, with `remaining`
iterations left; falling off the loop raises the final `OperationalError`. -/
def connectFrom (outcome : Nat → AttemptOutcome) (maxRetries retryDelay : Nat) :
    Nat → Nat → ConnResult × List ConnEvent
  | _, 0 => (ConnResult.raisedFinal, [])
  | attempt, r + 1 =>
    match outcome attempt with
    | .success => (.connected, [ConnEvent.attempt])
    | .opError msg =>
      if retryableMsg (msg.map pyLower) then
        if attempt < maxRetries then
          let rest := connectFrom outcome maxRetries retryDelay (attempt + 1) r
          (rest.1, ConnEvent.attempt :: ConnEvent.sleep retryDelay :: rest.2)
        else
          let rest := connectFrom outcome maxRetries retryDelay (attempt + 1) r
          (rest.1, ConnEvent.attempt :: rest.2)
      else (.raisedOp msg, [ConnEvent.attempt])
    | .pgError => (.raisedPg, [ConnEvent.attempt])
    | .unexpected => (.raisedOther, [ConnEvent.attempt])

/-- `DatabaseConnection.connect`: attempts are numbered `1..max_retries`;
`outcome i` is what the `i`-th attempt does. -/
def connect (outcome : Nat → AttemptOutcome) (maxRetries retryDelay : Nat) :
    ConnResult × List ConnEvent :=
  connectFrom outcome maxRetries retryDelay 1 maxRetries

/-- The trace of a run that neither connects nor raises before attempt `k + 1`:
an attempt, then `k` times a sleep followed by another attempt. -/
def altTrace (rd : Nat) : Nat → List ConnEvent
  | 0 => [ConnEvent.attempt]
  | k + 1 => ConnEvent.attempt :: ConnEvent.sleep rd :: altTrace rd k

end DatabaseConnection

/-! ## JSON values

Parsed JSON documents (`json.load` output).  Python `dict`s are association
lists with distinct keys; `isinstance(x, int)` is true for `bool` values too
(Python's `bool` subclasses `int`), which `jIsIntPy`/`jIntValPy` mirror. -/
inductive JVal where
  | jnull
  | jbool (b : Bool)
  | jint (n : Int)
  | jfloat (q : Rat)
  | jstr (s : Str)
  | jarr (xs : List JVal)
  | jobj (kvs : List (Str × JVal))

def objGet : List (Str × JVal) → Str → Option JVal
  | [], _ => none
  | (k, v) :: rest, key => if k = key then some v else objGet rest key

/-- `data[f]` as an option (`none` when `f not in data` or `data` is not a dict). -/
def jGetField (v : JVal) (k : Str) : Option JVal :=
  match v with
  | .jobj kvs => objGet kvs k
  | _ => none

/-- `data[f]`, defaulting to `null` (only used under a presence check). -/
def jField (v : JVal) (k : Str) : JVal := (jGetField v k).getD JVal.jnull

def jIsObj : JVal → Bool
  | .jobj _ => true
  | _ => false

def jIsStr : JVal → Bool
  | .jstr _ => true
  | _ => false

def jStrVal : JVal → Str
  | .jstr s => s
  | _ => []

def jIsArr : JVal → Bool
  | .jarr _ => true
  | _ => false

def jArrVal : JVal → List JVal
  | .jarr xs => xs
  | _ => []

def jIsBool : JVal → Bool
  | .jbool _ => true
  | _ => false

def jIsNull : JVal → Bool
  | .jnull => true
  | _ => false

/-- Python `isinstance(x, int)` — true for `bool` as well. -/
def jIsIntPy : JVal → Bool
  | .jint _ => true
  | .jbool _ => true
  | _ => false

def jIntValPy : JVal → Int
  | .jint n => n
  | .jbool b => if b then 1 else 0
  | _ => 0

/-- Python `isinstance(x, (int, float))` — true for `bool` as well. -/
def jIsNumPy : JVal → Bool
  | .jint _ => true
  | .jbool _ => true
  | .jfloat _ => true
  | _ => false

def jNumValPy : JVal → Rat
  | .jint n => (n : Rat)
  | .jbool b => if b then 1 else 0
  | .jfloat q => q
  | _ => 0

/-! ## `validate_json_file` (lines 234–490)

File I/O and `json.load` are abstracted: the function below validates the parsed
document.  `datetime.fromisoformat` (an external library call) is abstracted as
the oracle `isoOK`, applied — as in the source — after `replace('Z', '+00:00')`.
Each helper below corresponds to one STEP block of the source; the source's
early `return None`s make it return the document exactly when every check
passes, which is what the conjunction expresses. -/
def requiredFields : List Str :=
  ["id".data, "agent_slug".data, "title".data, "input_parameters".data,
    "output_result".data, "execution_trace".data, "created_at".data]

def hexDigit (c : Char) : Bool :=
  (decide ('0' ≤ c) && decide (c ≤ '9')) || (decide ('a' ≤ c) && decide (c ≤ 'f')) ||
    (decide ('A' ≤ c) && decide (c ≤ 'F'))

def hexRun : Nat → Str → Option Str
  | 0, s => some s
  | _ + 1, [] => none
  | n + 1, c :: rest => if hexDigit c then hexRun n rest else none

def expectDash : Str → Option Str
  | '-' :: r => some r
  | _ => none

def uuidTail (s : Str) : Option Str := do
  let r ← hexRun 8 s
  let r ← expectDash r
  let r ← hexRun 4 r
  let r ← expectDash r
  let r ← hexRun 4 r
  let r ← expectDash r
  let r ← hexRun 4 r
  let r ← expectDash r
  hexRun 12 r

/-- `re.match(uuid_pattern, s, re.IGNORECASE)` with the anchored
`^…$` pattern: `$` also matches just before one trailing newline. -/
def uuidMatch (s : Str) : Bool :=
  match uuidTail s with
  | some [] => true
  | some ['\n'] => true
  | _ => false

/-- STEP 3: non-empty string in valid UUID format. -/
def idOK (v : JVal) : Bool :=
  jIsStr v && !(jStrVal v).isEmpty && uuidMatch (jStrVal v)

/-- STEP 4: a string equal to `fraud-trends`. -/
def slugOK (v : JVal) : Bool :=
  jIsStr v && (jStrVal v == "fraud-trends".data)

/-- STEP 5 (title): non-empty string of at most 500 characters. -/
def titleOK (v : JVal) : Bool :=
  jIsStr v && !(jStrVal v).isEmpty && decide ((jStrVal v).length ≤ 500)

/-- STEP 5 (subtitle): if present and not `None`, a string of ≤ 1000 characters. -/
def subtitleOK (data : JVal) : Bool :=
  match jGetField data "subtitle".data with
  | none => true
  | some .jnull => true
  | some v => jIsStr v && decide ((jStrVal v).length ≤ 1000)

def nonEmptyStr (v : JVal) : Bool := jIsStr v && !(jStrVal v).isEmpty

/-- STEP 6: `input_parameters` object with non-empty `topic`, `regions`,
`time_range`. -/
def inputParamsOK (v : JVal) : Bool :=
  jIsObj v &&
  ["topic".data, "regions".data, "time_range".data].all
    (fun f => (jGetField v f).isSome) &&
  nonEmptyStr (jField v "topic".data) &&
  (jIsArr (jField v "regions".data) && !(jArrVal (jField v "regions".data)).isEmpty) &&
  nonEmptyStr (jField v "time_range".data)

/-- STEP 7: the `confidence_level` enum check (`x in ['high', 'medium', 'low']`). -/
def confLevelOK : JVal → Bool
  | .jstr s => s == "high".data || s == "medium".data || s == "low".data
  | _ => false

/-- STEP 7: `output_result` object with its required fields. -/
def outputResultOK (v : JVal) : Bool :=
  jIsObj v &&
  ["executive_summary".data, "trends".data, "regulatory_findings".data,
    "recommendations".data, "confidence_level".data].all
    (fun f => (jGetField v f).isSome) &&
  nonEmptyStr (jField v "executive_summary".data) &&
  jIsArr (jField v "trends".data) &&
  jIsArr (jField v "regulatory_findings".data) &&
  jIsArr (jField v "recommendations".data) &&
  confLevelOK (jField v "confidence_level".data)

/-- STEP 8 (per step): duration, if present and not `None`, is a non-negative
number. -/
def durationOK (s : JVal) : Bool :=
  match jGetField s "duration_ms".data with
  | none => true
  | some .jnull => true
  | some v => jIsNumPy v && decide (0 ≤ jNumValPy v)

/-- STEP 8 (per step): object with positive integer `step_number`, non-empty
`step_name`/`step_type`/`timestamp`, and a valid optional duration. -/
def stepOK (s : JVal) : Bool :=
  jIsObj s &&
  ["step_number".data, "step_name".data, "step_type".data, "timestamp".data].all
    (fun f => (jGetField s f).isSome) &&
  (jIsIntPy (jField s "step_number".data) &&
    decide (0 < jIntValPy (jField s "step_number".data))) &&
  nonEmptyStr (jField s "step_name".data) &&
  nonEmptyStr (jField s "step_type".data) &&
  nonEmptyStr (jField s "timestamp".data) &&
  durationOK s

/-- STEP 8: non-empty array of valid steps. -/
def traceOK (v : JVal) : Bool :=
  jIsArr v && !(jArrVal v).isEmpty && (jArrVal v).all stepOK

/-- STEP 9 (per field): non-empty string accepted by `datetime.fromisoformat`
after `replace('Z', '+00:00')`. -/
def tsFieldOK (isoOK : Str → Bool) (v : JVal) : Bool :=
  jIsStr v && !(jStrVal v).isEmpty &&
    isoOK (pyReplace (jStrVal v) ['Z'] "+00:00".data)

/-- STEP 9: `created_at` always, `updated_at` whenever present. -/
def timestampsOK (isoOK : Str → Bool) (data : JVal) : Bool :=
  tsFieldOK isoOK (jField data "created_at".data) &&
  (match jGetField data "updated_at".data with
   | none => true
   | some v => tsFieldOK isoOK v)

/-- STEP 10: an optional boolean field, if present and not `None`, is a bool. -/
def boolFieldOK (data : JVal) (f : Str) : Bool :=
  match jGetField data f with
  | none => true
  | some .jnull => true
  | some v => jIsBool v

/-- STEP 10: `display_order`, if present and not `None`, is a non-negative int. -/
def displayOrderOK (data : JVal) : Bool :=
  match jGetField data "display_order".data with
  | none => true
  | some .jnull => true
  | some v => jIsIntPy v && decide (0 ≤ jIntValPy v)

/-- All validation steps of `validate_json_file`, in source order. -/
def validateChecks (isoOK : Str → Bool) (data : JVal) : Bool :=
  jIsObj data &&
  requiredFields.all (fun f => (jGetField data f).isSome) &&
  idOK (jField data "id".data) &&
  slugOK (jField data "agent_slug".data) &&
  titleOK (jField data "title".data) &&
  subtitleOK data &&
  inputParamsOK (jField data "input_parameters".data) &&
  outputResultOK (jField data "output_result".data) &&
  traceOK (jField data "execution_trace".data) &&
  timestampsOK isoOK data &&
  (boolFieldOK data "display".data && boolFieldOK data "featured".data &&
    displayOrderOK data)

/-- `validate_json_file` on a parsed document: the source returns `None` at the
first failing check and the document itself after the last one. -/
def validate_json_file (isoOK : Str → Bool) (data : JVal) : Option JVal :=
  if validateChecks isoOK data then some data else none

/-- A concrete valid case-study document. -/
def sampleDoc : JVal :=
  .jobj [
    ("id".data, .jstr "12345678-1234-1234-1234-123456789abc".data),
    ("agent_slug".data, .jstr "fraud-trends".data),
    ("title".data, .jstr "Fraud Trends Q1".data),
    ("input_parameters".data, .jobj [
      ("topic".data, .jstr "fraud".data),
      ("regions".data, .jarr [.jstr "US".data]),
      ("time_range".data, .jstr "2025".data)]),
    ("output_result".data, .jobj [
      ("executive_summary".data, .jstr "Summary".data),
      ("trends".data, .jarr []),
      ("regulatory_findings".data, .jarr []),
      ("recommendations".data, .jarr []),
      ("confidence_level".data, .jstr "high".data)]),
    ("execution_trace".data, .jarr [.jobj [
      ("step_number".data, .jint 1),
      ("step_name".data, .jstr "Plan Research".data),
      ("step_type".data, .jstr "planning".data),
      ("timestamp".data, .jstr "2026-02-10T00:00:00Z".data)]]),
    ("created_at".data, .jstr "2026-02-10T00:00:00Z".data)]

/-! ## `sanitize_text` and `sanitize_json_field` (lines 497–555) -/
/-- Python `str.strip()`: remove leading and trailing whitespace. -/
def pyStrip (s : Str) : Str :=
  ((s.dropWhile pySpace).reverse.dropWhile pySpace).reverse

/-- `sanitize_text` on a string (the `isinstance` guard is vacuous at this
call site — `sanitize_json_field` only calls it on strings): remove NUL bytes,
replace whitespace other than `\n`, `\t` and space by a space, and strip.  The
`encode('utf-8', errors='ignore').decode` round trip is the identity here, as
Lean `Char`s are exactly the valid Unicode scalar values. -/
def sanitize_text (s : Str) : Str :=
  let t1 := pyReplace s ['\x00'] []
  let t2 := t1.map (fun c =>
    if c == '\n' || c == '\t' || !(pySpace c) || c == ' ' then c else ' ')
  pyStrip t2

mutual

/-- `sanitize_json_field`: sanitize strings recursively; dict keys are left
untouched, and non-string scalars are returned as-is. -/
def sanitize_json_field : JVal → JVal
  | .jobj kvs => .jobj (sanitizeKVs kvs)
  | .jarr xs => .jarr (sanitizeArr xs)
  | .jstr s => .jstr (sanitize_text s)
  | v => v

def sanitizeArr : List JVal → List JVal
  | [] => []
  | x :: xs => sanitize_json_field x :: sanitizeArr xs

def sanitizeKVs : List (Str × JVal) → List (Str × JVal)
  | [] => []
  | (k, v) :: rest => (k, sanitize_json_field v) :: sanitizeKVs rest

end

mutual

/-- No string value reachable in the JSON value contains a NUL byte (dict keys,
which `sanitize_json_field` never touches, are not inspected). -/
def noNullsV : JVal → Bool
  | .jobj kvs => noNullsK kvs
  | .jarr xs => noNullsL xs
  | .jstr s => s.all (fun c => !(c == '\x00'))
  | _ => true

def noNullsL : List JVal → Bool
  | [] => true
  | x :: xs => noNullsV x && noNullsL xs

def noNullsK : List (Str × JVal) → Bool
  | [] => true
  | (_, v) :: rest => noNullsV v && noNullsK rest

end

/-! ## `import_single_file` (lines 735–812)

`import_case_study` and `import_execution_steps` catch every exception they can
see and return a boolean, so inside `import_single_file`'s `try` block only
`conn.commit()` can raise; all three `except` clauses roll back and return
`False`, and the `finally` clause returns the connection with
`error=has_error` (a connection returned with `error=True` is closed, which
discards the open transaction). -/
/-- Outcomes of the oracle-controlled operations of one single-file import. -/
structure SingleFileOracle where
  /-- `validate_json_file` returns a document (not `None`). -/
  validates : Bool
  /-- `db.get_connection()` succeeds. -/
  connOK : Bool
  /-- `import_case_study` (the upsert) returns `True`. -/
  upsertOK : Bool
  /-- `import_execution_steps` returns `True`. -/
  stepsOK : Bool
  /-- `conn.commit()` returns without raising. -/
  commitOK : Bool
deriving DecidableEq

/-- Observable database-connection events of `import_single_file`. -/
inductive DBEvent where
  | getConn
  /-- `import_case_study` is called; `ok` is its boolean result. -/
  | upsertAttempt (ok : Bool)
  /-- `import_execution_steps` is called; `ok` is its boolean result. -/
  | stepsAttempt (ok : Bool)
  /-- `conn.commit()` is called. -/
  | commit
  /-- `conn.rollback()` is called. -/
  | rollback
  /-- `db.return_connection(conn, error=error)`; `error=True` closes the
  connection, discarding any open transaction. -/
  | returnConn (error : Bool)
deriving DecidableEq

/-- `import_single_file`: result and the ordered event trace. -/
def import_single_file (o : SingleFileOracle) : Bool × List DBEvent :=
  if !o.validates then (false, [])
  else if !o.connOK then (false, [])
  else if !o.upsertOK then
    (false, [.getConn, .upsertAttempt false, .returnConn true])
  else if !o.stepsOK then
    (false, [.getConn, .upsertAttempt true, .stepsAttempt false, .returnConn true])
  else if o.commitOK then
    (true, [.getConn, .upsertAttempt true, .stepsAttempt true, .commit,
      .returnConn false])
  else
    (false, [.getConn, .upsertAttempt true, .stepsAttempt true, .commit,
      .rollback, .returnConn true])

/-! ## `import_directory` (lines 815–1010)

Per discovered file the oracle records the validation result (phase 1) and the
outcomes of the database operations (phase 2, reached only for valid files).
With `continue_on_error=False` each failure `break`s out of the import loop
after counting the current file as failed; with `continue_on_error=True` the
loop always `continue`s. -/
structure DirFileOracle where
  /-- `validate_json_file` returns a document in the pre-validation phase. -/
  valid : Bool
  connOK : Bool
  upsertOK : Bool
  stepsOK : Bool
  commitOK : Bool
deriving DecidableEq

/-- A valid file imports successfully when every database operation succeeds. -/
def fileImportSucceeds (f : DirFileOracle) : Bool :=
  f.connOK && f.upsertOK && f.stepsOK && f.commitOK

/-- The phase-2 import loop over the valid files: returns
`(successful, failed, attempted)`. -/
def importLoop (cont : Bool) : List DirFileOracle → Nat × Nat × Nat
  | [] => (0, 0, 0)
  | f :: rest =>
    if fileImportSucceeds f then
      let r := importLoop cont rest
      (r.1 + 1, r.2.1, r.2.2 + 1)
    else if cont then
      let r := importLoop cont rest
      (r.1, r.2.1 + 1, r.2.2 + 1)
    else (0, 1, 1)

/-- `import_directory`: returns `(successful, failed + invalid, attempted)`,
mirroring the source's `return (successful, failed + len(invalid_files), …)`
and its two early returns (no files at all; no valid files). -/
def import_directory (files : List DirFileOracle) (cont : Bool) : Nat × Nat × Nat :=
  if files.isEmpty then (0, 0, 0)
  else
    let valids := files.filter (fun f => f.valid)
    let invalidCount := (files.filter (fun f => !f.valid)).length
    if valids.isEmpty then (0, invalidCount, 0)
    else
      let r := importLoop cont valids
      (r.1, r.2.1 + invalidCount, r.2.2)

end ImportScript


/-! ## Theorems -/

namespace ArticleEditor

theorem leads_exists {p s : Str} (h : leads p s = true) : ∃ t, s = p ++ t := by
  induction p generalizing s with
  | nil => exact ⟨s, rfl⟩
  | cons a as ih =>
    cases s with
    | nil => simp [leads] at h
    | cons b bs =>
      simp only [leads, Bool.and_eq_true, beq_iff_eq] at h
      obtain ⟨rfl, h2⟩ := h
      obtain ⟨t, rfl⟩ := ih h2
      exact ⟨t, rfl⟩

theorem qeAux_transfer {p : Char} {x : Str} (h : qeAux p x = true) (hp : p ≠ '\\')
    (q : Char) : qeAux q x = true := by
  cases x with
  | nil => rfl
  | cons c rest =>
    simp only [qeAux, Bool.and_eq_true, Bool.or_eq_true, Bool.not_eq_true',
      beq_iff_eq, beq_eq_false_iff_ne] at h ⊢
    refine ⟨?_, h.2⟩
    rcases h.1 with h1 | h1
    · exact Or.inl h1
    · exact absurd h1 hp

theorem qeAux_append_extract {a : Str} {t : Str} :
    ∀ {prev last : Char}, qeAux prev (a ++ t) = true → a.getLast? = some last →
      qeAux last t = true := by
  induction a with
  | nil => intro prev last _ hl; simp at hl
  | cons c as ih =>
    intro prev last h hl
    simp only [List.cons_append, qeAux, Bool.and_eq_true] at h
    cases as with
    | nil =>
      simp only [List.getLast?_singleton, Option.some_inj] at hl
      subst hl
      simpa using h.2
    | cons d ds =>
      have hl' : (d :: ds).getLast? = some last := by
        simpa [List.getLast?_cons_cons] using hl
      exact ih h.2 hl'

theorem replAux_cons_match {pat rep : Str} {fuel : Nat} {c : Char} {rest : Str}
    (h : leads pat (c :: rest) = true) (hne : pat ≠ []) :
    replAux pat rep (fuel + 1) (c :: rest) =
      rep ++ replAux pat rep fuel ((c :: rest).drop pat.length) := by
  simp [replAux, h, List.isEmpty_iff, hne]

theorem replAux_cons_nomatch {pat rep : Str} {fuel : Nat} {c : Char} {rest : Str}
    (h : ¬ (leads pat (c :: rest) && !pat.isEmpty) = true) :
    replAux pat rep (fuel + 1) (c :: rest) = c :: replAux pat rep fuel rest := by
  simp only [replAux, if_neg h]

theorem leads_single (a c : Char) (rest : Str) :
    leads [a] (c :: rest) = (a == c) := by
  simp [leads]

theorem length_le_of_cons {c : Char} {rest : Str} {n : Nat}
    (hx : (c :: rest).length ≤ n + 1) : rest.length ≤ n := by
  simp only [List.length_cons] at hx
  omega

/-- Replacing every `"` by `\"` yields a string in which every quote is preceded
by a backslash, whatever the preceding character. -/
theorem qeAux_replAux_quote :
    ∀ (fuel : Nat) (x : Str), x.length ≤ fuel → ∀ prev,
      qeAux prev (replAux ['"'] ['\\', '"'] fuel x) = true := by
  intro fuel
  induction fuel with
  | zero =>
    intro x hx prev
    have : x = [] := List.length_eq_zero.mp (Nat.le_zero.mp hx)
    subst this; rfl
  | succ n ih =>
    intro x hx prev
    cases x with
    | nil => rfl
    | cons c rest =>
      have hlen : rest.length ≤ n := length_le_of_cons hx
      by_cases hc : c = '"'
      · subst hc
        rw [replAux_cons_match (by rw [leads_single]; exact beq_self_eq_true _)
            (by simp)]
        simp only [List.length_cons, List.length_nil, List.drop_succ_cons,
          List.drop_zero]
        simp only [qeAux, Bool.and_eq_true, Bool.or_eq_true]
        exact ⟨Or.inl (by decide), Or.inr (by decide), ih rest hlen '"'⟩
      · rw [replAux_cons_nomatch (by
          simp only [leads_single, Bool.and_eq_true, beq_iff_eq]
          rintro ⟨h1, -⟩
          exact hc h1.symm)]
        simp only [qeAux, Bool.and_eq_true, Bool.or_eq_true, Bool.not_eq_true',
          beq_eq_false_iff_ne]
        exact ⟨Or.inl hc, ih rest hlen c⟩

/-- Replacing a pattern whose last character is not a backslash by `\c` preserves
the quotes-escaped invariant. -/
theorem qeAux_replAux_preserve (pat : Str) (lc r : Char)
    (hlast : pat.getLast? = some lc) (hlc : lc ≠ '\\') :
    ∀ (fuel : Nat) (x : Str) (prev : Char), qeAux prev x = true →
      qeAux prev (replAux pat ['\\', r] fuel x) = true := by
  have hne : pat ≠ [] := by
    intro h; subst h; simp at hlast
  intro fuel
  induction fuel with
  | zero => intro x prev h; simpa [replAux] using h
  | succ n ih =>
    intro x prev h
    cases x with
    | nil => rfl
    | cons c rest =>
      by_cases hm : leads pat (c :: rest) = true
      · obtain ⟨t, ht⟩ := leads_exists hm
        have hdrop : (c :: rest).drop pat.length = t := by
          rw [ht, List.drop_left]
        rw [replAux_cons_match hm hne, hdrop]
        have hqt : qeAux lc t = true := by
          rw [ht] at h
          exact qeAux_append_extract h hlast
        have hqr : qeAux r t = true := qeAux_transfer hqt hlc r
        simp only [qeAux, Bool.and_eq_true, Bool.or_eq_true]
        exact ⟨Or.inl (by decide), Or.inr (by simp), ih t r hqr⟩
      · rw [replAux_cons_nomatch (by
          simp only [Bool.and_eq_true]
          rintro ⟨h1, -⟩
          exact hm h1)]
        simp only [qeAux, Bool.and_eq_true] at h ⊢
        exact ⟨h.1, ih rest c h.2⟩

/-- After replacing single-character pattern `[a]`, the character `a` no longer
occurs, provided the replacement does not contain it and the fuel suffices. -/
theorem not_mem_replAux_elim (a : Char) (rep : Str) (ha : a ∉ rep) :
    ∀ (fuel : Nat) (x : Str), x.length ≤ fuel → a ∉ replAux [a] rep fuel x := by
  intro fuel
  induction fuel with
  | zero =>
    intro x hx
    have : x = [] := List.length_eq_zero.mp (Nat.le_zero.mp hx)
    subst this; simp [replAux]
  | succ n ih =>
    intro x hx
    cases x with
    | nil => simp [replAux]
    | cons c rest =>
      have hlen : rest.length ≤ n := length_le_of_cons hx
      by_cases hc : c = a
      · subst hc
        rw [replAux_cons_match (by rw [leads_single]; exact beq_self_eq_true _)
            (by simp)]
        simp only [List.length_cons, List.length_nil, List.drop_succ_cons,
          List.drop_zero]
        intro hmem
        rcases List.mem_append.mp hmem with h1 | h1
        · exact ha h1
        · exact ih rest hlen h1
      · rw [replAux_cons_nomatch (by
          simp only [leads_single, Bool.and_eq_true, beq_iff_eq]
          rintro ⟨h1, -⟩
          exact hc h1.symm)]
        intro hmem
        rcases List.mem_cons.mp hmem with h1 | h1
        · exact hc h1.symm
        · exact ih rest hlen h1

/-- A character absent from `x` and from the replacement stays absent. -/
theorem not_mem_replAux_preserve (a : Char) (pat rep : Str) (ha : a ∉ rep) :
    ∀ (fuel : Nat) (x : Str), a ∉ x → a ∉ replAux pat rep fuel x := by
  intro fuel
  induction fuel with
  | zero => intro x hx; simpa [replAux] using hx
  | succ n ih =>
    intro x hx
    cases x with
    | nil => simp [replAux]
    | cons c rest =>
      by_cases hm : (leads pat (c :: rest) && !pat.isEmpty) = true
      · have : replAux pat rep (n + 1) (c :: rest) =
            rep ++ replAux pat rep n ((c :: rest).drop pat.length) := by
          simp only [replAux, if_pos hm]
        rw [this]
        intro hmem
        rcases List.mem_append.mp hmem with h1 | h1
        · exact ha h1
        · exact ih _ (fun hmem2 => hx (List.drop_subset _ _ hmem2)) h1
      · rw [replAux_cons_nomatch hm]
        intro hmem
        rcases List.mem_cons.mp hmem with h1 | h1
        · exact hx (h1 ▸ List.mem_cons_self c rest)
        · exact ih rest (fun h2 => hx (List.mem_cons_of_mem c h2)) h1

/-- The escaped content contains no raw newline, carriage return, or tab. -/
theorem escapeContent_noCtl (content : Str) : noCtl (escapeContent content) = true := by
  unfold escapeContent
  set s3 := pyReplace (pyReplace (pyReplace content ['\\', '"'] sentinel) ['"'] ['\\', '"'])
      sentinel ['\\', '"'] with hs3
  set s4 := pyReplace s3 ['\n'] ['\\', 'n'] with hs4
  set s5 := pyReplace s4 ['\r'] ['\\', 'r'] with hs5
  set s6 := pyReplace s5 ['\t'] ['\\', 't'] with hs6
  have hn4 : '\n' ∉ s4 := by
    rw [hs4]
    exact not_mem_replAux_elim '\n' ['\\', 'n'] (by decide) s3.length s3 le_rfl
  have hn5 : '\n' ∉ s5 := by
    rw [hs5]
    exact not_mem_replAux_preserve '\n' ['\r'] ['\\', 'r'] (by decide) s4.length s4 hn4
  have hn6 : '\n' ∉ s6 := by
    rw [hs6]
    exact not_mem_replAux_preserve '\n' ['\t'] ['\\', 't'] (by decide) s5.length s5 hn5
  have hr5 : '\r' ∉ s5 := by
    rw [hs5]
    exact not_mem_replAux_elim '\r' ['\\', 'r'] (by decide) s4.length s4 le_rfl
  have hr6 : '\r' ∉ s6 := by
    rw [hs6]
    exact not_mem_replAux_preserve '\r' ['\t'] ['\\', 't'] (by decide) s5.length s5 hr5
  have ht6 : '\t' ∉ s6 := by
    rw [hs6]
    exact not_mem_replAux_elim '\t' ['\\', 't'] (by decide) s5.length s5 le_rfl
  rw [noCtl, List.all_eq_true]
  intro c hc
  have h1 : c ≠ '\n' := fun h => hn6 (h ▸ hc)
  have h2 : c ≠ '\r' := fun h => hr6 (h ▸ hc)
  have h3 : c ≠ '\t' := fun h => ht6 (h ▸ hc)
  simp [h1, h2, h3]

/-- Every double quote in the escaped content is immediately preceded by a
backslash. -/
theorem escapeContent_quotesEscaped (content : Str) :
    quotesEscaped (escapeContent content) = true := by
  unfold escapeContent
  set s2 := pyReplace (pyReplace content ['\\', '"'] sentinel) ['"'] ['\\', '"'] with hs2
  set s3 := pyReplace s2 sentinel ['\\', '"'] with hs3
  set s4 := pyReplace s3 ['\n'] ['\\', 'n'] with hs4
  set s5 := pyReplace s4 ['\r'] ['\\', 'r'] with hs5
  have h2 : qeAux ' ' s2 = true := by
    rw [hs2]
    exact qeAux_replAux_quote _ _ le_rfl ' '
  have h3 : qeAux ' ' s3 = true :=
    qeAux_replAux_preserve sentinel '\x00' '"' (by decide) (by decide) _ s2 ' ' h2
  have h4 : qeAux ' ' s4 = true :=
    qeAux_replAux_preserve ['\n'] '\n' 'n' (by decide) (by decide) _ s3 ' ' h3
  have h5 : qeAux ' ' s5 = true :=
    qeAux_replAux_preserve ['\r'] '\r' 'r' (by decide) (by decide) _ s4 ' ' h4
  exact qeAux_replAux_preserve ['\t'] '\t' 't' (by decide) (by decide) _ s5 ' ' h5

/-- When both patterns are located, the output is the unchanged prefix, the
escaped content, and the unchanged remainder of the input (matched ending plus
tail). -/
theorem fix_eq_of_found {s : Str} {st er el : Nat}
    (h1 : findStart s = some st) (h2 : findEnd (s.drop st) = some (er, el)) :
    fix_json_string_escaping s =
      s.take st ++ escapeContent ((s.drop st).take er) ++ s.drop (st + er) := by
  unfold fix_json_string_escaping
  rw [h1]
  dsimp only
  rw [h2]
  dsimp only
  have h3 : (s.drop st).drop er = s.drop (st + er) := by
    rw [List.drop_drop]
  have h4 : s.drop (st + er + el) = (s.drop (st + er)).drop el := by
    rw [List.drop_drop]
  simp only [List.append_assoc]
  rw [h3, h4, List.take_append_drop]

/-- **C2.** Whenever `fix_json_string_escaping` locates the `enhanced_article`
value (the start pattern matches and one of the four end patterns matches after
it), the value region of the returned string — the escaped content spliced
between the unchanged prefix and the unchanged matched ending — contains no raw
newline, carriage-return or tab character, and every double quote in it is
immediately preceded by a backslash. -/
theorem C2_fix_region_escaped :
    ∀ (s : Str) (st er el : Nat),
      findStart s = some st →
      findEnd (s.drop st) = some (er, el) →
      fix_json_string_escaping s =
          s.take st ++ escapeContent ((s.drop st).take er) ++ s.drop (st + er) ∧
        noCtl (escapeContent ((s.drop st).take er)) = true ∧
        quotesEscaped (escapeContent ((s.drop st).take er)) = true :=
  fun _ _ _ _ h1 h2 =>
    ⟨fix_eq_of_found h1 h2, escapeContent_noCtl _, escapeContent_quotesEscaped _⟩

/-- Witness for C2: on `regionWitnessInput` the start pattern ends at 21, the
`key_learnings` end pattern matches 5 characters later, and the repaired region
satisfies both properties. -/
theorem C2_fix_region_escaped_witness :
    fix_json_string_escaping regionWitnessInput =
        regionWitnessInput.take 21 ++
          escapeContent ((regionWitnessInput.drop 21).take 5) ++
          regionWitnessInput.drop (21 + 5) ∧
      noCtl (escapeContent ((regionWitnessInput.drop 21).take 5)) = true ∧
      quotesEscaped (escapeContent ((regionWitnessInput.drop 21).take 5)) = true :=
  C2_fix_region_escaped regionWitnessInput 21 5 18 (by decide) (by decide)

/-- **C8.** `fix_json_string_escaping` only changes characters strictly inside the
located value region: the prefix up to the region start and everything from the
matched end pattern onward are reproduced verbatim, and when either pattern
fails to match the whole input is returned unchanged. -/
theorem C8_fix_frame :
    ∀ s : Str,
      (findStart s = none → fix_json_string_escaping s = s) ∧
      (∀ st, findStart s = some st → findEnd (s.drop st) = none →
        fix_json_string_escaping s = s) ∧
      (∀ st er el, findStart s = some st → findEnd (s.drop st) = some (er, el) →
        fix_json_string_escaping s =
          s.take st ++ escapeContent ((s.drop st).take er) ++ s.drop (st + er)) := by
  intro s
  refine ⟨?_, ?_, ?_⟩
  · intro h
    unfold fix_json_string_escaping
    rw [h]
  · intro st h1 h2
    unfold fix_json_string_escaping
    rw [h1]
    dsimp only
    rw [h2]
  · intro st er el h1 h2
    exact fix_eq_of_found h1 h2

/-- Witness for C8: on `frameWitnessInput` the region is located (start 22,
content `hi`, ending `" }`) and the output splits into unchanged prefix, escaped
content and unchanged suffix. -/
theorem C8_fix_frame_witness :
    fix_json_string_escaping frameWitnessInput =
      frameWitnessInput.take 22 ++
        escapeContent ((frameWitnessInput.drop 22).take 2) ++
        frameWitnessInput.drop (22 + 2) :=
  (C8_fix_frame frameWitnessInput).2.2 22 2 3 (by decide) (by decide)

/-- **C9.** `fix_json_string_escaping` is not idempotent.  The first pass turns
the value `\x00ESCAPED_QUOTE"` into `\x00ESCAPED_QUOTE\"`; on the second pass
the `\"`-protection step manufactures the placeholder `\x00ESCAPED_QUOTE\x00`
out of input bytes plus the inserted marker, and the restore step rewrites it,
yielding `\"ESCAPED_QUOTE\x00` — so the restore fires on bytes it never marked,
contradicting the function's own "restore the already-escaped quotes" comment. -/
theorem C9_fix_not_idempotent :
    fix_json_string_escaping (fix_json_string_escaping nonIdemInput) ≠
      fix_json_string_escaping nonIdemInput := by decide

/-- **C1 (counterexample).** With `TAVILY_API_KEY` set and a step-2 response
containing five claims, a run of `run_article_editor_workflow` makes ten
synchronous network calls — more than the eight the claim allows. -/
theorem C1_eight_calls_counterexample :
    (run_article_editor_workflow 5 true).2.length = 10 ∧
      ¬ (run_article_editor_workflow 5 true).2.length ≤ 8 := by decide

/-- **C1 (amended).** Every run of `run_article_editor_workflow` makes at most
ten synchronous network calls: five LLM invocations (steps 1, 2, 4, 5, 7) plus
at most five Tavily searches (step 3, one per claim, capped at `claims[:5]`). -/
theorem C1_at_most_ten_calls :
    ∀ (claimsCount : Nat) (tavilyKey : Bool),
      (run_article_editor_workflow claimsCount tavilyKey).2.length ≤ 10 := by
  intro claimsCount tavilyKey
  cases tavilyKey <;>
    simp [run_article_editor_workflow, step_1_analyze_structure,
      step_2_identify_claims, step_3_search_references, step_4_find_examples,
      step_5_analyze_flow, step_6_generate_suggestions,
      step_7_produce_enhanced_version]

/-- **C7.** On every successful run the execution trace has exactly seven
entries, appended in the fixed order Analyze Structure, Identify Claims, Search
References, Find Examples, Analyze Flow, Generate Suggestions, Produce Enhanced
Version, and the i-th entry (counting from one) carries `step_number = i`. -/
theorem C7_trace_seven_steps :
    ∀ (claimsCount : Nat) (tavilyKey : Bool),
      (run_article_editor_workflow claimsCount tavilyKey).1.length = 7 ∧
        (run_article_editor_workflow claimsCount tavilyKey).1.map
            (fun e => e.step_name) =
          ["Analyze Structure", "Identify Claims", "Search References",
            "Find Examples", "Analyze Flow", "Generate Suggestions",
            "Produce Enhanced Version"] ∧
        ∀ i : Fin 7,
          ((run_article_editor_workflow claimsCount tavilyKey).1.getD i.val
              ⟨0, "", ""⟩).step_number = i.val + 1 := by
  intro claimsCount tavilyKey
  cases tavilyKey <;>
    exact ⟨by rfl, by rfl, by intro i; fin_cases i <;> rfl⟩

end ArticleEditor

namespace ImportScript

open ArticleEditor (Str leads pyReplace replAux pySpace)

namespace DatabaseConnection

theorem connectFrom_attempts_le (outcome : Nat → AttemptOutcome)
    (maxRetries retryDelay : Nat) :
    ∀ (r a : Nat),
      ((connectFrom outcome maxRetries retryDelay a r).2.countP isAttempt) ≤ r := by
  intro r
  induction r with
  | zero => intro a; simp [connectFrom]
  | succ n ih =>
    intro a
    unfold connectFrom
    cases outcome a with
    | success => simp [List.countP_cons, isAttempt]
    | opError msg =>
      by_cases hr : retryableMsg (msg.map pyLower) = true
      · by_cases ha : a < maxRetries
        · simp [hr, ha, List.countP_cons, isAttempt]
          have := ih (a + 1)
          omega
        · simp [hr, ha, List.countP_cons, isAttempt]
          have := ih (a + 1)
          omega
      · simp only [Bool.not_eq_true] at hr
        simp [hr, List.countP_cons, isAttempt]
    | pgError => simp [List.countP_cons, isAttempt]
    | unexpected => simp [List.countP_cons, isAttempt]

theorem connectFrom_trace_shape (outcome : Nat → AttemptOutcome)
    (maxRetries retryDelay : Nat) :
    ∀ (r a : Nat), 1 ≤ r → a + r = maxRetries + 1 →
      ∃ k, k < r ∧
        (connectFrom outcome maxRetries retryDelay a r).2 = altTrace retryDelay k := by
  intro r
  induction r with
  | zero => intro a h; omega
  | succ n ih =>
    intro a _ hsum
    unfold connectFrom
    cases outcome a with
    | success => exact ⟨0, Nat.succ_pos n, rfl⟩
    | opError msg =>
      by_cases hr : retryableMsg (msg.map pyLower) = true
      · by_cases ha : a < maxRetries
        · have hn : 1 ≤ n := by omega
          obtain ⟨k, hk, he⟩ := ih (a + 1) hn (by omega)
          refine ⟨k + 1, by omega, ?_⟩
          simp only [hr, if_true, ha, altTrace, he]
        · have hn : n = 0 := by omega
          subst hn
          refine ⟨0, Nat.one_pos, ?_⟩
          simp [hr, ha, connectFrom, altTrace]
      · simp only [Bool.not_eq_true] at hr
        exact ⟨0, Nat.succ_pos n, by simp [hr, altTrace]⟩
    | pgError => exact ⟨0, Nat.succ_pos n, rfl⟩
    | unexpected => exact ⟨0, Nat.succ_pos n, rfl⟩

theorem connectFrom_exhaust (outcome : Nat → AttemptOutcome)
    (maxRetries retryDelay : Nat) :
    ∀ (r a : Nat), a + r = maxRetries + 1 →
      (∀ i, a ≤ i → i ≤ maxRetries →
        ∃ msg, outcome i = .opError msg ∧ retryableMsg (msg.map pyLower) = true) →
      (connectFrom outcome maxRetries retryDelay a r).1 = .raisedFinal := by
  intro r
  induction r with
  | zero => intro a _ _; rfl
  | succ n ih =>
    intro a hsum hall
    obtain ⟨msg, hmsg, hretry⟩ := hall a le_rfl (by omega)
    unfold connectFrom
    rw [hmsg]
    have hrec := ih (a + 1) (by omega)
      (fun i h1 h2 => hall i (by omega) h2)
    by_cases ha : a < maxRetries
    · simp [hretry, ha, hrec]
    · simp [hretry, ha, hrec]

end DatabaseConnection

/-- **C4 (counterexample).** An operational error whose message is
`"timeout: database does not exist"` indicates that the database does not exist,
yet `connect` categorizes it as a timeout (checked first) and retries: with the
default `max_retries = 3` it makes all three attempts and then raises the final
exhaustion error instead of raising immediately after one attempt. -/
theorem C4_retry_counterexample :
    (DatabaseConnection.connect
        (fun _ => .opError "timeout: database does not exist".data) 3 2).1 =
        ConnResult.raisedFinal ∧
      ((DatabaseConnection.connect
        (fun _ => .opError "timeout: database does not exist".data) 3 2).2.countP
          isAttempt) = 3 := by decide

/-- **C4 (amended).** `connect` makes at most `max_retries` attempts, its trace
is an attempt followed by sleep/attempt pairs with every sleep lasting
`retry_delay` seconds; for an operational error whose lowercased message
contains a does-not-exist or authentication/password indicator *and none of the
transient markers checked first* (`timeout`, `timed out`, `could not connect`,
`connection refused`), it re-raises immediately after the first attempt; and
when every attempt fails with a retryable operational error it raises the final
`OperationalError` after exhausting all retries. -/
theorem C4_connect_retry_behavior :
    ∀ (outcome : Nat → AttemptOutcome) (maxRetries retryDelay : Nat),
      ((DatabaseConnection.connect outcome maxRetries retryDelay).2.countP
          isAttempt) ≤ maxRetries ∧
      (1 ≤ maxRetries → ∃ k, k < maxRetries ∧
        (DatabaseConnection.connect outcome maxRetries retryDelay).2 =
          DatabaseConnection.altTrace retryDelay k) ∧
      (∀ msg, 1 ≤ maxRetries → outcome 1 = .opError msg →
        retryableMsg (msg.map pyLower) = false →
        DatabaseConnection.connect outcome maxRetries retryDelay =
          (.raisedOp msg, [ConnEvent.attempt])) ∧
      ((∀ i, 1 ≤ i → i ≤ maxRetries →
          ∃ msg, outcome i = .opError msg ∧ retryableMsg (msg.map pyLower) = true) →
        (DatabaseConnection.connect outcome maxRetries retryDelay).1 =
          .raisedFinal) := by
  intro outcome maxRetries retryDelay
  refine ⟨?_, ?_, ?_, ?_⟩
  · exact DatabaseConnection.connectFrom_attempts_le outcome maxRetries retryDelay
      maxRetries 1
  · intro h1
    exact DatabaseConnection.connectFrom_trace_shape outcome maxRetries retryDelay
      maxRetries 1 h1 (by omega)
  · intro msg h1 hout hfatal
    cases maxRetries with
    | zero => exact absurd h1 (by decide)
    | succ m =>
      unfold DatabaseConnection.connect DatabaseConnection.connectFrom
      rw [hout]
      simp [hfatal]
  · intro hall
    exact DatabaseConnection.connectFrom_exhaust outcome maxRetries retryDelay
      maxRetries 1 (by omega) (fun i h1 h2 => hall i h1 h2)

/-- Witness for C4: with every attempt failing with message
`"fe_sendauth: no password supplied"` (no transient marker, contains
`password`), `connect` with the defaults raises that error after exactly one
attempt. -/
theorem C4_connect_retry_behavior_witness :
    DatabaseConnection.connect
        (fun _ => .opError "fe_sendauth: no password supplied".data) 3 2 =
      (.raisedOp "fe_sendauth: no password supplied".data, [ConnEvent.attempt]) :=
  (C4_connect_retry_behavior
      (fun _ => .opError "fe_sendauth: no password supplied".data) 3 2).2.2.1
    "fe_sendauth: no password supplied".data (by decide) rfl (by decide)

theorem validateChecks_decomp {isoOK : Str → Bool} {data : JVal}
    (h : validateChecks isoOK data = true) :
    (∀ f ∈ requiredFields, (jGetField data f).isSome = true) ∧
      slugOK (jField data "agent_slug".data) = true ∧
      traceOK (jField data "execution_trace".data) = true := by
  unfold validateChecks at h
  simp only [Bool.and_eq_true] at h
  obtain ⟨⟨⟨⟨⟨⟨⟨⟨⟨⟨-, hreq⟩, -⟩, hslug⟩, -⟩, -⟩, -⟩, -⟩, htrace⟩, -⟩, -⟩ := h
  exact ⟨fun f hf => List.all_eq_true.mp hreq f hf, hslug, htrace⟩

theorem slugOK_eq {v : JVal} (h : slugOK v = true) :
    v = .jstr "fraud-trends".data := by
  cases v <;> simp [slugOK, jIsStr, jStrVal] at h
  rw [h]

theorem traceOK_arr {v : JVal} (h : traceOK v = true) :
    ∃ tr, tr ≠ [] ∧ v = .jarr tr := by
  cases v <;> simp [traceOK, jIsArr, jArrVal] at h
  next xs => exact ⟨xs, h.1, rfl⟩

/-- **C6.** `validate_json_file` rejects (returns `None`) whenever a required
top-level field is absent, whenever `agent_slug` is anything but the string
`fraud-trends`, or whenever `execution_trace` is an empty list; and it returns
the parsed document itself only when every validation step passes (in
particular, all required fields are then present, the slug is `fraud-trends`,
and the execution trace is a non-empty list). -/
theorem C6_validate_json_file :
    ∀ (isoOK : Str → Bool) (data : JVal),
      (∀ f ∈ requiredFields, jGetField data f = none →
        validate_json_file isoOK data = none) ∧
      (jGetField data "agent_slug".data ≠ some (.jstr "fraud-trends".data) →
        validate_json_file isoOK data = none) ∧
      (jGetField data "execution_trace".data = some (.jarr []) →
        validate_json_file isoOK data = none) ∧
      (∀ doc, validate_json_file isoOK data = some doc →
        doc = data ∧
          (∀ f ∈ requiredFields, (jGetField data f).isSome = true) ∧
          jGetField data "agent_slug".data = some (.jstr "fraud-trends".data) ∧
          ∃ tr, tr ≠ [] ∧
            jGetField data "execution_trace".data = some (.jarr tr)) := by
  intro isoOK data
  by_cases hchk : validateChecks isoOK data = true
  · obtain ⟨hreq, hslug, htrace⟩ := validateChecks_decomp hchk
    have hslug' : jGetField data "agent_slug".data =
        some (.jstr "fraud-trends".data) := by
      have hs := hreq "agent_slug".data (by simp [requiredFields])
      obtain ⟨v, hv⟩ := Option.isSome_iff_exists.mp hs
      have heq : jField data "agent_slug".data = v := by
        simp [jField, hv]
      rw [heq] at hslug
      rw [hv, slugOK_eq hslug]
    have htrace' : ∃ tr, tr ≠ [] ∧
        jGetField data "execution_trace".data = some (.jarr tr) := by
      have hs := hreq "execution_trace".data (by simp [requiredFields])
      obtain ⟨v, hv⟩ := Option.isSome_iff_exists.mp hs
      have heq : jField data "execution_trace".data = v := by
        simp [jField, hv]
      rw [heq] at htrace
      obtain ⟨tr, htr, rfl⟩ := traceOK_arr htrace
      exact ⟨tr, htr, hv⟩
    refine ⟨?_, ?_, ?_, ?_⟩
    · intro f hf hnone
      exact absurd (hreq f hf) (by simp [hnone])
    · intro hne
      exact absurd hslug' hne
    · intro hempty
      obtain ⟨tr, htr, heq⟩ := htrace'
      rw [hempty] at heq
      have : JVal.jarr [] = JVal.jarr tr := Option.some_inj.mp heq
      have htr' : ([] : List JVal) = tr := by injection this
      exact absurd htr'.symm htr
    · intro doc hdoc
      have : validate_json_file isoOK data = some data := by
        simp [validate_json_file, hchk]
      rw [this] at hdoc
      exact ⟨(Option.some_inj.mp hdoc).symm, hreq, hslug', htrace'⟩
  · have hnone : validate_json_file isoOK data = none := by
      simp [validate_json_file, hchk]
    exact ⟨fun _ _ _ => hnone, fun _ => hnone, fun _ => hnone,
      fun doc hdoc => absurd (hnone ▸ hdoc) (by simp)⟩

/-- Witness for C6: `sampleDoc` passes every check, and the acceptance part of
the theorem yields the promised facts for it. -/
theorem C6_validate_json_file_witness :
    sampleDoc = sampleDoc ∧
      (∀ f ∈ requiredFields, (jGetField sampleDoc f).isSome = true) ∧
      jGetField sampleDoc "agent_slug".data =
        some (.jstr "fraud-trends".data) ∧
      ∃ tr, tr ≠ [] ∧
        jGetField sampleDoc "execution_trace".data = some (.jarr tr) :=
  (C6_validate_json_file (fun _ => true) sampleDoc).2.2.2 sampleDoc rfl

theorem sanitize_text_no_nul (s : Str) :
    ∀ c ∈ sanitize_text s, c ≠ '\x00' := by
  intro c hc
  unfold sanitize_text at hc
  have h1 : '\x00' ∉ pyReplace s ['\x00'] [] :=
    ArticleEditor.not_mem_replAux_elim '\x00' [] (by simp) s.length s le_rfl
  set t1 := pyReplace s ['\x00'] [] with ht1
  set f : Char → Char := fun c =>
    if c == '\n' || c == '\t' || !(pySpace c) || c == ' ' then c else ' ' with hf
  have h2 : '\x00' ∉ t1.map f := by
    intro hmem
    obtain ⟨d, hd, hfd⟩ := List.mem_map.mp hmem
    have hfd' : (if (d == '\n' || d == '\t' || !(pySpace d) || d == ' ') = true
        then d else ' ') = '\x00' := hfd
    by_cases hcond : (d == '\n' || d == '\t' || !(pySpace d) || d == ' ') = true
    · rw [if_pos hcond] at hfd'
      exact h1 (hfd' ▸ hd)
    · rw [if_neg hcond] at hfd'
      exact absurd hfd' (by decide)
  intro hceq
  subst hceq
  apply h2
  have hsub : pyStrip (t1.map f) ⊆ t1.map f := by
    intro a ha
    unfold pyStrip at ha
    rw [List.mem_reverse] at ha
    have ha2 := (List.dropWhile_sublist _).subset ha
    rw [List.mem_reverse] at ha2
    exact (List.dropWhile_sublist _).subset ha2
  exact hsub hc

theorem sanitize_text_all_no_nul (s : Str) :
    (sanitize_text s).all (fun c => !(c == '\x00')) = true := by
  rw [List.all_eq_true]
  intro c hc
  simpa using sanitize_text_no_nul s c hc

mutual

theorem noNullsV_sanitize : ∀ v : JVal, noNullsV (sanitize_json_field v) = true
  | .jobj kvs => by
    rw [sanitize_json_field, noNullsV]
    exact noNullsK_sanitize kvs
  | .jarr xs => by
    rw [sanitize_json_field, noNullsV]
    exact noNullsL_sanitize xs
  | .jstr s => by
    rw [sanitize_json_field, noNullsV]
    exact sanitize_text_all_no_nul s
  | .jnull => rfl
  | .jbool _ => rfl
  | .jint _ => rfl
  | .jfloat _ => rfl

theorem noNullsL_sanitize : ∀ xs : List JVal, noNullsL (sanitizeArr xs) = true
  | [] => rfl
  | x :: xs => by
    rw [sanitizeArr, noNullsL, Bool.and_eq_true]
    exact ⟨noNullsV_sanitize x, noNullsL_sanitize xs⟩

theorem noNullsK_sanitize :
    ∀ kvs : List (Str × JVal), noNullsK (sanitizeKVs kvs) = true
  | [] => rfl
  | (k, v) :: rest => by
    rw [sanitizeKVs, noNullsK, Bool.and_eq_true]
    exact ⟨noNullsV_sanitize v, noNullsK_sanitize rest⟩

end

theorem sanitizeKVs_keys (kvs : List (Str × JVal)) :
    (sanitizeKVs kvs).map Prod.fst = kvs.map Prod.fst := by
  induction kvs with
  | nil => rfl
  | cons kv rest ih =>
    obtain ⟨k, v⟩ := kv
    rw [sanitizeKVs, List.map_cons, List.map_cons, ih]

theorem sanitizeArr_length (xs : List JVal) :
    (sanitizeArr xs).length = xs.length := by
  induction xs with
  | nil => rfl
  | cons x rest ih => rw [sanitizeArr, List.length_cons, List.length_cons, ih]

/-- **C10.** `sanitize_json_field` preserves JSON shape: objects map to objects
with the same keys in the same order (keys themselves untouched), arrays map to
arrays of the same length, `null`, booleans and numbers are returned unchanged,
and no string value in its output contains a NUL byte. -/
theorem C10_sanitize_json_field_shape :
    (∀ kvs, sanitize_json_field (.jobj kvs) = .jobj (sanitizeKVs kvs) ∧
      (sanitizeKVs kvs).map Prod.fst = kvs.map Prod.fst) ∧
    (∀ xs, sanitize_json_field (.jarr xs) = .jarr (sanitizeArr xs) ∧
      (sanitizeArr xs).length = xs.length) ∧
    sanitize_json_field .jnull = .jnull ∧
    (∀ b, sanitize_json_field (.jbool b) = .jbool b) ∧
    (∀ n, sanitize_json_field (.jint n) = .jint n) ∧
    (∀ q, sanitize_json_field (.jfloat q) = .jfloat q) ∧
    (∀ v, noNullsV (sanitize_json_field v) = true) :=
  ⟨fun kvs => ⟨by rw [sanitize_json_field], sanitizeKVs_keys kvs⟩,
    fun xs => ⟨by rw [sanitize_json_field], sanitizeArr_length xs⟩,
    rfl, fun _ => rfl, fun _ => rfl, fun _ => rfl, noNullsV_sanitize⟩

/-- **C3.** In `import_single_file`, `conn.commit()` is called exactly when both
the case-study upsert and the execution-step insert succeeded, and when it is
called the upsert and step-insert successes precede it; on a failure of either,
no commit happens and the transaction is rolled back or the connection is
discarded (returned with `error=True`). -/
theorem C3_commit_only_after_success :
    ∀ o : SingleFileOracle,
      (DBEvent.commit ∈ (import_single_file o).2 ↔
        (o.validates = true ∧ o.connOK = true ∧ o.upsertOK = true ∧
          o.stepsOK = true)) ∧
      (o.validates = true → o.connOK = true →
        (o.upsertOK = false ∨ o.stepsOK = false) →
        DBEvent.commit ∉ (import_single_file o).2 ∧
          (DBEvent.rollback ∈ (import_single_file o).2 ∨
            DBEvent.returnConn true ∈ (import_single_file o).2)) ∧
      (DBEvent.commit ∈ (import_single_file o).2 →
        (import_single_file o).2.take 3 =
          [DBEvent.getConn, DBEvent.upsertAttempt true,
            DBEvent.stepsAttempt true]) := by
  rintro ⟨v, c, u, s, k⟩
  cases v <;> cases c <;> cases u <;> cases s <;> cases k <;> decide

/-- Witness for C3: on an all-success run the commit event occurs. -/
theorem C3_commit_only_after_success_witness :
    DBEvent.commit ∈ (import_single_file ⟨true, true, true, true, true⟩).2 :=
  (C3_commit_only_after_success ⟨true, true, true, true, true⟩).1.mpr
    ⟨rfl, rfl, rfl, rfl⟩

theorem importLoop_counts (l : List DirFileOracle) :
    (importLoop true l).1 + (importLoop true l).2.1 = l.length ∧
      (importLoop true l).2.2 = l.length := by
  induction l with
  | nil => exact ⟨rfl, rfl⟩
  | cons f rest ih =>
    by_cases hf : fileImportSucceeds f = true <;>
      simp [importLoop, hf] <;> omega

theorem filter_split_length {α : Type} (p : α → Bool) (l : List α) :
    (l.filter p).length + (l.filter (fun a => !p a)).length = l.length := by
  induction l with
  | nil => rfl
  | cons a rest ih =>
    by_cases ha : p a = true <;>
      simp [List.filter_cons, ha] <;> omega

/-- **C5.** With `continue_on_error=True` (the default), `import_directory`
attempts the import of every discovered valid file (the attempt count equals the
number of files passing pre-validation, independent of earlier failures), and
the returned counts satisfy `successful + failed = number of discovered
files`. -/
theorem C5_import_directory_counts :
    ∀ files : List DirFileOracle,
      (import_directory files true).1 + (import_directory files true).2.1 =
          files.length ∧
        (import_directory files true).2.2 =
          (files.filter (fun f => f.valid)).length := by
  intro files
  unfold import_directory
  by_cases hempty : files.isEmpty = true
  · rw [if_pos hempty]
    rw [List.isEmpty_iff] at hempty
    subst hempty
    exact ⟨rfl, rfl⟩
  · rw [if_neg hempty]
    by_cases hv : (files.filter (fun f => f.valid)).isEmpty = true
    · simp only [if_pos hv]
      rw [List.isEmpty_iff] at hv
      have hsplit := filter_split_length (fun f => f.valid) files
      rw [hv] at hsplit
      simp only [List.length_nil] at hsplit
      exact ⟨by omega, by rw [hv]; rfl⟩
    · simp only [if_neg hv]
      have hloop := importLoop_counts (files.filter (fun f => f.valid))
      have hsplit := filter_split_length (fun f => f.valid) files
      constructor
      · omega
      · exact hloop.2

end ImportScript
